import Mathlib

/-!
Verification development for the sourceful-assignment job lifecycle engine.

The backend's job lifecycle core (session manager, job repository, job
service, async worker) is documented in src/backend/PRODUCTION_ARCHITECTURE.md
and the backend READMEs; the Python modules themselves (core/database.py,
repositories/job_repository.py, services.py, workers/async_worker.py) are not
part of the source tree given here, so the definitions below are modelled from
the specification's description of those components, cross-checked against the
code snippets embedded in PRODUCTION_ARCHITECTURE.md.  The frontend
AuthProvider is embedded directly from src/frontend/lib/auth-context.tsx.
-/

namespace Sourceful

/-- Job status enumeration: pending, processing, completed, failed
(README "Job Statuses", PRODUCTION_ARCHITECTURE.md schema). -/
inductive Status where
  | pending
  | processing
  | completed
  | failed
deriving DecidableEq

/-- Terminal states are completed and failed (spec glossary). -/
def Status.isTerminal : Status → Bool
  | .completed => true
  | .failed => true
  | _ => false

/-- Job entity, mirroring the jobs table of PRODUCTION_ARCHITECTURE.md:
id, status, num_images, animal, image_urls, error, created_at, updated_at.
Timestamps are modelled as naturals, ids as naturals. -/
structure Job where
  id : Nat
  status : Status
  numImages : Nat
  animal : Option String
  imageUrls : List String
  error : Option String
  createdAt : Nat
  updatedAt : Nat
deriving DecidableEq

/-- The persisted jobs table, as a list of rows. -/
abbrev Store := List Job

/-- Modelled from the spec: the forward-only job state machine
pending → processing → {completed, failed}; any other transition is
refused (repositories/job_repository.py update_status is not in src/). -/
def canTransition : Status → Status → Bool
  | .pending, .processing => true
  | .processing, .completed => true
  | .processing, .failed => true
  | _, _ => false

/-- Modelled from the spec: the row-level effect of update_status on one row —
if the row has the requested id and the transition respects the forward-only
state machine, write the new status, any provided terminal fields, and
updatedAt := now; otherwise leave the row unchanged (no-op refusal). -/
def applyUpdate (i : Nat) (ns : Status) (a : Option String)
    (u : Option (List String)) (e : Option String) (now : Nat) (j : Job) : Job :=
  if j.id == i && canTransition j.status ns then
    { j with
      status := ns
      animal := if a.isSome then a else j.animal
      imageUrls := match u with
        | some us => us
        | none => j.imageUrls
      error := if e.isSome then e else j.error
      updatedAt := now }
  else j

namespace JobRepository

/-- Modelled from the spec / PRODUCTION_ARCHITECTURE.md JobRepository.create:
insert a new row with status=pending, createdAt=updatedAt=now, the generated
id, empty imageUrls and null animal/error; return the materialized entity. -/
def create (st : Store) (newId nImages now : Nat) : Store × Job :=
  let j : Job :=
    { id := newId
      status := Status.pending
      numImages := nImages
      animal := none
      imageUrls := []
      error := none
      createdAt := now
      updatedAt := now }
  (st ++ [j], j)

/-- PRODUCTION_ARCHITECTURE.md JobRepository.get_by_id: point lookup by id,
returning none when absent. -/
def get_by_id (st : Store) (i : Nat) : Option Job :=
  st.find? (fun j => j.id == i)

/-- Ordering of rows by creation time (SQL ORDER BY created_at ASC). -/
def createdLe (a b : Job) : Prop := a.createdAt ≤ b.createdAt

instance : DecidableRel createdLe := fun a b => Nat.decLe a.createdAt b.createdAt

instance : IsTotal Job createdLe := ⟨fun a b => Nat.le_total a.createdAt b.createdAt⟩

instance : IsTrans Job createdLe := ⟨fun _ _ _ h h₂ => Nat.le_trans h h₂⟩

/-- Modelled from the spec: get_pending_jobs / listPending — rows with
status=pending, ordered by createdAt ascending, optionally capped
(repositories/job_repository.py is not in src/). -/
def get_pending_jobs (st : Store) (limit : Option Nat) : List Job :=
  let ps := List.insertionSort createdLe (st.filter (fun j => j.status == Status.pending))
  match limit with
  | some k => ps.take k
  | none => ps

/-- Modelled from the spec: update_status — write the new status and any
terminal fields with updatedAt=now on the row with the given id, refusing
(as a no-op) any transition that does not respect the forward-only state
machine. -/
def update_status (st : Store) (i : Nat) (ns : Status) (a : Option String)
    (u : Option (List String)) (e : Option String) (now : Nat) : Store :=
  st.map (applyUpdate i ns a u e now)

end JobRepository

/-- Maximum images per job, from the backend configuration
(MAX_IMAGES_PER_JOB=10 in the documented environment). -/
def MAX_IMAGES_PER_JOB : Nat := 10

/-- Service-level submission failure. -/
inductive ServiceError where
  | validation
deriving DecidableEq

namespace JobService

/-- Modelled from the spec: submit(numImages) validates
1 ≤ numImages ≤ MAX_IMAGES_PER_JOB, fails with ValidationError otherwise,
and on success delegates to the repository to persist a pending job
(services.py is not in src/). -/
def submit (st : Store) (nImages newId now : Nat) :
    Except ServiceError (Store × Job) :=
  if 1 ≤ nImages && nImages ≤ MAX_IMAGES_PER_JOB then
    Except.ok (JobRepository.create st newId nImages now)
  else
    Except.error ServiceError.validation

/-- The persisted state after an attempted submission: unchanged when the
submission was rejected. -/
def submitStore (st : Store) (nImages newId now : Nat) : Store :=
  match submit st nImages newId now with
  | Except.ok r => r.1
  | Except.error _ => st

end JobService

/-- Provider collaborator behaviour: for a job id and a requested image count,
either an (animal, image payloads) success or a provider error message
(spec §6 generateImages; providers.py is not in src/). -/
abbrev Provider := Nat → Nat → Except String (String × List String)

/-- Observable actions of one worker poll cycle, in program order: the claim
write (status := processing), the provider call, the storage call, and the
terminal status write for a job id. -/
inductive Event where
  | claimWrite (i : Nat)
  | providerCall (i : Nat)
  | storageCall (i : Nat)
  | terminalWrite (i : Nat) (s : Status)
deriving DecidableEq

namespace AsyncImageWorker

/-- Work done on an already re-fetched job row: proceed only if it is still
processing; invoke the provider for the requested numImages; pass payloads
through storage (pass-through mode); on success write completed with animal
and imageUrls, on provider failure write failed with the stringified cause. -/
def process_fetched (p : Provider) (st : Store) (i now : Nat) (j : Job) :
    Store × List Event :=
  if j.status == Status.processing then
    match p i j.numImages with
    | Except.ok r =>
      (JobRepository.update_status st i Status.completed (some r.1) (some r.2) none now,
       [Event.providerCall i, Event.storageCall i,
        Event.terminalWrite i Status.completed])
    | Except.error e =>
      (JobRepository.update_status st i Status.failed none none (some e) now,
       [Event.providerCall i, Event.terminalWrite i Status.failed])
  else (st, [])

/-- Modelled from the spec: the per-job unit of work process_job(id)
(workers/async_worker.py is not in src/) — re-fetch the job to confirm it is
still processing under this worker's claim, then run the unit of work on the
fetched row; a job that vanished or is no longer processing is left alone.
Returns the updated store and the trace of external actions taken. -/
def process_job (p : Provider) (st : Store) (i now : Nat) : Store × List Event :=
  match JobRepository.get_by_id st i with
  | none => (st, [])
  | some j => process_fetched p st i now j

/-- Claim step for one fetched job: flip its status to processing before any
external work (spec §4.4 step 3). -/
def claim (st : Store) (i now : Nat) : Store × List Event :=
  (JobRepository.update_status st i Status.processing none none none now,
   [Event.claimWrite i])

/-- Claim phase over the fetched ids, in listing order. -/
def claimPhase (st : Store) (ids : List Nat) (now : Nat) : Store × List Event :=
  match ids with
  | [] => (st, [])
  | i :: rest =>
    let r := claim st i now
    let w := claimPhase r.1 rest now
    (w.1, r.2 ++ w.2)

/-- Dispatch phase over the claimed ids.  The spec's fan-out runs each per-job
unit in isolation on its own session scope over disjoint rows, so the gather
is modelled as sequencing of the independent per-job units. -/
def processPhase (p : Provider) (st : Store) (ids : List Nat) (now : Nat) :
    Store × List Event :=
  match ids with
  | [] => (st, [])
  | i :: rest =>
    let r := process_job p st i now
    let w := processPhase p r.1 rest now
    (w.1, r.2 ++ w.2)

/-- The ids fetched by one poll cycle's pending listing. -/
def pendingIds (st : Store) : List Nat :=
  (JobRepository.get_pending_jobs st none).map Job.id

/-- Modelled from the spec: one iteration of
AsyncImageWorker.process_pending_jobs — open a fresh scope, fetch the pending
jobs, claim every fetched job (first write, before any provider call), then
dispatch all claimed jobs (workers/async_worker.py is not in src/;
PRODUCTION_ARCHITECTURE.md lines 153-162 show the fetch and the concurrent
dispatch). -/
def process_pending_jobs (p : Provider) (st : Store) (now : Nat) :
    Store × List Event :=
  let ids := pendingIds st
  let c := claimPhase st ids now
  let w := processPhase p c.1 ids now
  (w.1, c.2 ++ w.2)

end AsyncImageWorker

/-- Outcome of the body of a session scope: a normal return, an exception
escaping the body, or a cancellation during the body. -/
inductive SessionExit (α : Type) where
  | normal (a : α)
  | raised (e : String)
  | cancelled
deriving DecidableEq

/-- Writes a scoped unit of work may buffer before commit. -/
inductive Write where
  | createRow (newId nImages now : Nat)
  | updateRow (i : Nat) (ns : Status) (a : Option String)
      (u : Option (List String)) (e : Option String) (now : Nat)
deriving DecidableEq

/-- Application of one buffered write to the committed store. -/
def applyWrite (st : Store) (w : Write) : Store :=
  match w with
  | Write.createRow newId nImages now => (JobRepository.create st newId nImages now).1
  | Write.updateRow i ns a u e now => JobRepository.update_status st i ns a u e now

namespace DatabaseSessionManager

/-- From the PRODUCTION_ARCHITECTURE.md snippet of
DatabaseSessionManager.session (lines 75-83): run the body on a session over
the committed store; on normal return commit the buffered writes; on an
exception roll the writes back and re-raise; the async-with session factory
closes the session on every exit path, including cancellation, returning the
connection to the pool (the returned Bool records that release). -/
def session {α : Type} (db : Store) (body : Store → List Write × SessionExit α) :
    Store × SessionExit α × Bool :=
  let r := body db
  match r.2 with
  | SessionExit.normal a => (r.1.foldl applyWrite db, SessionExit.normal a, true)
  | SessionExit.raised e => (db, SessionExit.raised e, true)
  | SessionExit.cancelled => (db, SessionExit.cancelled, true)

end DatabaseSessionManager

namespace AsyncImageWorker

/-- Modelled from the spec: one iteration of the supervisor loop body — the
poll-cycle work may raise while fetching pending jobs or opening a scope; a
raised exception is logged and the loop proceeds with the store unchanged
(spec §4.4 failure semantics; workers/async_worker.py is not in src/). -/
def loopStep (body : Nat → Store → Except String Store) (k : Nat) (st : Store) :
    Store :=
  match body k st with
  | Except.ok st₂ => st₂
  | Except.error _ => st

/-- Modelled from the spec: AsyncImageWorker.run — poll while the running
flag is up; shutdown is the only exit.  fuel bounds how many iterations are
observed; the result is some (store, k) when the loop observed the shutdown
signal at iteration k, and none when it was still looping after fuel
iterations. -/
def run (body : Nat → Store → Except String Store) (shutdownAt : Nat → Bool)
    (fuel k : Nat) (st : Store) : Option (Store × Nat) :=
  match fuel with
  | 0 => none
  | Nat.succ f =>
    if shutdownAt k then some (st, k)
    else run body shutdownAt f (k + 1) (loopStep body k st)

end AsyncImageWorker

/-- Provider contract (spec §6): a successful generateImages call for count n
returns exactly n payloads and a non-empty subject label; a provider failure
carries a non-empty stringified cause. -/
def ProviderOK (p : Provider) : Prop :=
  ∀ i n,
    (∀ a urls, p i n = Except.ok (a, urls) → urls.length = n ∧ a ≠ "") ∧
    (∀ e, p i n = Except.error e → e ≠ "")

/-- Reachable persisted states of the job table: the empty table, a state
after an attempted submission with a freshly generated id, and a state after
one worker poll cycle against a contract-satisfying provider (spec §3
ownership: the Service owns creation, the Worker owns every post-creation
transition, rows are never deleted). -/
inductive Reachable : Store → Prop where
  | init : Reachable []
  | submit {st : Store} (nImages newId now : Nat)
      (hfresh : newId ∉ st.map Job.id) (h : Reachable st) :
      Reachable (JobService.submitStore st nImages newId now)
  | poll {st : Store} {p : Provider} (now : Nat) (hp : ProviderOK p)
      (h : Reachable st) :
      Reachable (AsyncImageWorker.process_pending_jobs p st now).1

/-- Frontend user record, from src/frontend/lib/auth-context.tsx. -/
structure AuthUser where
  id : String
  name : String
  email : String
  credits : Nat
deriving DecidableEq

/-- AuthProvider component state: the user slot held in useState. -/
structure AuthState where
  user : Option AuthUser
deriving DecidableEq

namespace AuthProvider

/-- Initial state: useState(null). -/
def initState : AuthState := { user := none }

/-- Derived context value isAuthenticated = !!user. -/
def isAuthenticated (s : AuthState) : Bool := s.user.isSome

/-- Derived context value credits = user?.credits ?? 0. -/
def credits (s : AuthState) : Nat :=
  match s.user with
  | some u => u.credits
  | none => 0

/-- signIn sets the mock user with id 1, name Test User, the given email and
10 credits. -/
def signIn (s : AuthState) (email password : String) : AuthState :=
  { s with user := some { id := "1", name := "Test User", email := email, credits := 10 } }

/-- signOut clears the user. -/
def signOut (s : AuthState) : AuthState := { s with user := none }

/-- States reachable in the AuthProvider: the initial null-user state, closed
under signIn and signOut. -/
inductive ReachableAuth : AuthState → Prop where
  | init : ReachableAuth initState
  | signIn {s : AuthState} (email password : String) (h : ReachableAuth s) :
      ReachableAuth (signIn s email password)
  | signOut {s : AuthState} (h : ReachableAuth s) :
      ReachableAuth (AuthProvider.signOut s)

end AuthProvider

/-! ## Derived per-row descriptions of the worker's writes -/

/-- The job id an event refers to. -/
def Event.jobId : Event → Nat
  | Event.claimWrite i => i
  | Event.providerCall i => i
  | Event.storageCall i => i
  | Event.terminalWrite i _ => i

/-- Whether an event is a claim write. -/
def Event.isClaim : Event → Bool
  | Event.claimWrite _ => true
  | _ => false

/-- Row-level effect of the dispatch step on the row with the processed id:
the per-job unit re-reads the row, proceeds only if it is still processing,
and writes the terminal state decided by its own provider outcome. -/
def stepJob (p : Provider) (now : Nat) (j : Job) : Job :=
  if j.status == Status.processing then
    match p j.id j.numImages with
    | Except.ok r => applyUpdate j.id Status.completed (some r.1) (some r.2) none now j
    | Except.error e => applyUpdate j.id Status.failed none none (some e) now j
  else j

/-- Row-level effect of the claim fold on a single row. -/
def claimFold (ids : List Nat) (now : Nat) (j : Job) : Job :=
  ids.foldl (fun x i => applyUpdate i Status.processing none none none now x) j

/-- Row-level effect of a whole poll cycle on one fetched pending row: claim
it, then run the per-job unit. -/
def cycleStep (p : Provider) (now : Nat) (j : Job) : Job :=
  stepJob p now { j with status := Status.processing, updatedAt := now }

/-- One update_status call, packaged as data so that arbitrary call sequences
can be quantified over. -/
structure Call where
  i : Nat
  ns : Status
  a : Option String
  u : Option (List String)
  e : Option String
  now : Nat

/-- Store-level effect of one packaged update_status call. -/
def applyCall (st : Store) (c : Call) : Store :=
  JobRepository.update_status st c.i c.ns c.a c.u c.e c.now

/-- Store-level effect of a sequence of update_status calls. -/
def applyCalls (st : Store) (cs : List Call) : Store := cs.foldl applyCall st

/-- Row-level effect of one packaged update_status call on a single row. -/
def applyCallJob (j : Job) (c : Call) : Job :=
  applyUpdate c.i c.ns c.a c.u c.e c.now j

/-! ## Consistency predicates for C9 -/

/-- Terminal-field consistency as claimed: a completed job carries exactly
numImages urls and a non-empty animal; a failed job carries no urls and a
non-empty error; error is set exactly on failed jobs. -/
def jobConsistent (j : Job) : Prop :=
  (j.status = Status.completed → j.imageUrls.length = j.numImages ∧
    ∃ a, j.animal = some a ∧ a ≠ "") ∧
  (j.status = Status.failed → j.imageUrls = [] ∧
    ∃ e, j.error = some e ∧ e ≠ "") ∧
  (j.error.isSome = true ↔ j.status = Status.failed)

/-- Strengthened per-row invariant used for the induction: non-terminal rows
still carry empty terminal fields. -/
def jobWf (j : Job) : Prop :=
  match j.status with
  | Status.pending => j.imageUrls = [] ∧ j.animal = none ∧ j.error = none
  | Status.processing => j.imageUrls = [] ∧ j.animal = none ∧ j.error = none
  | Status.completed => j.imageUrls.length = j.numImages ∧
      (∃ a, j.animal = some a ∧ a ≠ "") ∧ j.error = none
  | Status.failed => j.imageUrls = [] ∧ ∃ e, j.error = some e ∧ e ≠ ""

/-- Store invariant: distinct ids and well-formed rows. -/
def storeWf (st : Store) : Prop :=
  (st.map Job.id).Nodup ∧ ∀ j ∈ st, jobWf j

/-! ## Concrete sample data used by the witness theorems -/

/-- Sample completed row used to instantiate the monotonicity theorem. -/
def jobDoneW : Job :=
  { id := 1
    status := Status.completed
    numImages := 2
    animal := some ("bear")
    imageUrls := ["u1", "u2"]
    error := none
    createdAt := 0
    updatedAt := 5 }

/-- Sample call sequence trying to drag a job backwards. -/
def callsW : List Call :=
  [{ i := 1, ns := Status.pending, a := none, u := some [], e := none, now := 9 },
   { i := 1, ns := Status.processing, a := none, u := none, e := none, now := 10 }]

/-- Body used for the session-scope witness: buffers one create then raises. -/
def bodyRaiseW : Store → List Write × SessionExit Nat :=
  fun _ => ([Write.createRow 5 3 1], SessionExit.raised ("boom"))

/-- Body used for the session-scope witness: buffers one create and returns. -/
def bodyOkW : Store → List Write × SessionExit Nat :=
  fun _ => ([Write.createRow 5 3 1], SessionExit.normal 0)

/-- Loop body that raises at every iteration, for the C5 witness. -/
def bodyAlwaysRaises : Nat → Store → Except String Store :=
  fun _ _ => Except.error ("db down")

/-- Shutdown signal raised at iteration 2, for the C5 witness. -/
def shutdownAtTwo : Nat → Bool := fun k => k == 2

/-- Sample pending row (older), for the listing and worker witnesses. -/
def jobPendOldW : Job :=
  { id := 2
    status := Status.pending
    numImages := 1
    animal := none
    imageUrls := []
    error := none
    createdAt := 3
    updatedAt := 3 }

/-- Sample pending row (newer), for the listing and worker witnesses. -/
def jobPendNewW : Job :=
  { id := 3
    status := Status.pending
    numImages := 2
    animal := none
    imageUrls := []
    error := none
    createdAt := 8
    updatedAt := 8 }

/-- Sample store holding a completed, a newer pending and an older pending
row, for the listing witness. -/
def listStoreW : Store := [jobDoneW, jobPendNewW, jobPendOldW]

/-- Sample store with two pending rows, for the worker witnesses. -/
def fanStoreW : Store := [jobPendOldW, jobPendNewW]

/-- Provider that fails exactly for job id 2, for the worker witnesses. -/
def provMixW : Provider :=
  fun i n =>
    if i == 2 then Except.error ("boom")
    else Except.ok ("cat", List.replicate n ("img"))

/-- Provider that always succeeds with a bear, for the reachability witness. -/
def provOkW : Provider :=
  fun _ n => Except.ok ("bear", List.replicate n ("img"))

/-- The job produced by submitting numImages=2 at time 0 and letting one poll
cycle at time 1 complete it through provOkW, for the reachability witness. -/
def jobFinalW : Job :=
  { id := 0
    status := Status.completed
    numImages := 2
    animal := some ("bear")
    imageUrls := ["img", "img"]
    error := none
    createdAt := 0
    updatedAt := 1 }

/-! ## Helper lemmas about row updates -/

theorem applyUpdate_id (i : Nat) (ns : Status) (a : Option String)
    (u : Option (List String)) (e : Option String) (now : Nat) (j : Job) :
    (applyUpdate i ns a u e now j).id = j.id := by
  unfold applyUpdate
  split <;> rfl

theorem applyUpdate_numImages (i : Nat) (ns : Status) (a : Option String)
    (u : Option (List String)) (e : Option String) (now : Nat) (j : Job) :
    (applyUpdate i ns a u e now j).numImages = j.numImages := by
  unfold applyUpdate
  split <;> rfl

theorem applyUpdate_not_allowed {j : Job} (i : Nat) (ns : Status)
    (a : Option String) (u : Option (List String)) (e : Option String)
    (now : Nat) (h : canTransition j.status ns = false) :
    applyUpdate i ns a u e now j = j := by
  unfold applyUpdate
  simp [h]

theorem applyUpdate_terminal {j : Job} (i : Nat) (ns : Status)
    (a : Option String) (u : Option (List String)) (e : Option String)
    (now : Nat) (h : j.status.isTerminal = true) :
    applyUpdate i ns a u e now j = j := by
  have hc : canTransition j.status ns = false := by
    cases hs : j.status
    · rw [hs] at h; simp [Status.isTerminal] at h
    · rw [hs] at h; simp [Status.isTerminal] at h
    · cases ns <;> rfl
    · cases ns <;> rfl
  exact applyUpdate_not_allowed i ns a u e now hc

theorem foldl_map_comm {β : Type} (h : β → Job → Job) (ids : List β) (st : Store) :
    ids.foldl (fun s i => s.map (h i)) st =
      st.map (fun j => ids.foldl (fun x i => h i x) j) := by
  induction ids generalizing st with
  | nil => simp
  | cons i rest ih =>
    simp only [List.foldl_cons]
    rw [ih, List.map_map]
    rfl

theorem applyCalls_eq_map (st : Store) (cs : List Call) :
    applyCalls st cs = st.map (fun j => cs.foldl applyCallJob j) :=
  foldl_map_comm (fun c j => applyCallJob j c) cs st

theorem foldl_applyCallJob_terminal (cs : List Call) (j : Job)
    (h : j.status.isTerminal = true) : cs.foldl applyCallJob j = j := by
  induction cs with
  | nil => rfl
  | cons c rest ih =>
    have hj : applyCallJob j c = j :=
      applyUpdate_terminal c.i c.ns c.a c.u c.e c.now h
    rw [List.foldl_cons, hj]
    exact ih

/-! ## Claim theorems: repository and service -/

/-- C2: job status is monotonic under every sequence of update_status calls —
the store-level sequence acts row-wise; a row in a terminal state (completed
or failed) is left completely unchanged by any further calls; and any single
call whose transition is not along pending → processing → {completed, failed}
is refused as a no-op on that row. -/
theorem update_status_monotonic (st : Store) (cs : List Call) :
    applyCalls st cs = st.map (fun j => cs.foldl applyCallJob j) ∧
    (∀ j : Job, j.status.isTerminal = true → cs.foldl applyCallJob j = j) ∧
    (∀ (j : Job) (c : Call), canTransition j.status c.ns = false →
      applyCallJob j c = j) := by
  refine ⟨applyCalls_eq_map st cs, ?_, ?_⟩
  · intro j h
    exact foldl_applyCallJob_terminal cs j h
  · intro j c h
    exact applyUpdate_not_allowed c.i c.ns c.a c.u c.e c.now h

theorem update_status_monotonic_witness :
    callsW.foldl applyCallJob jobDoneW = jobDoneW ∧
    applyCalls [jobDoneW] callsW =
      [jobDoneW].map (fun j => callsW.foldl applyCallJob j) :=
  ⟨(update_status_monotonic [jobDoneW] callsW).2.1 jobDoneW (by decide),
   (update_status_monotonic [jobDoneW] callsW).1⟩

/-- C6: a valid submission persists exactly one new row, a pending job with
empty imageUrls, no animal, no error, createdAt = updatedAt = now and the
freshly generated id, and returns that job. -/
theorem submit_valid_creates_pending_job (st : Store) (n newId now : Nat)
    (h₁ : 1 ≤ n) (h₂ : n ≤ MAX_IMAGES_PER_JOB) :
    ∃ j : Job,
      JobService.submit st n newId now = Except.ok (st ++ [j], j) ∧
      j.status = Status.pending ∧ j.imageUrls = [] ∧
      j.createdAt = j.updatedAt ∧ j.createdAt = now ∧
      j.id = newId ∧ j.numImages = n ∧ j.animal = none ∧ j.error = none := by
  refine ⟨{ id := newId, status := Status.pending, numImages := n,
            animal := none, imageUrls := [], error := none,
            createdAt := now, updatedAt := now }, ?_, rfl, rfl, rfl, rfl, rfl, rfl, rfl, rfl⟩
  unfold JobService.submit JobRepository.create
  have hb : (1 ≤ n && n ≤ MAX_IMAGES_PER_JOB) = true := by
    simp [h₁, h₂]
  rw [hb]
  simp

theorem submit_valid_witness :
    ∃ j : Job,
      JobService.submit [] 3 7 42 = Except.ok ([] ++ [j], j) ∧
      j.status = Status.pending ∧ j.imageUrls = [] ∧
      j.createdAt = j.updatedAt ∧ j.createdAt = 42 ∧
      j.id = 7 ∧ j.numImages = 3 ∧ j.animal = none ∧ j.error = none :=
  submit_valid_creates_pending_job [] 3 7 42 (by decide) (by decide)

/-- C7: an out-of-range submission fails with ValidationError and leaves the
persisted state unchanged — no row is created. -/
theorem submit_invalid_rejected_no_row (st : Store) (n newId now : Nat)
    (h : n < 1 ∨ MAX_IMAGES_PER_JOB < n) :
    JobService.submit st n newId now = Except.error ServiceError.validation ∧
    JobService.submitStore st n newId now = st := by
  have hb : (1 ≤ n && n ≤ MAX_IMAGES_PER_JOB) = false := by
    rcases h with h | h
    · simp [Nat.lt_iff_add_one_le] at h
      simp [Nat.lt_of_succ_le]
      omega
    · simp
      omega
  constructor
  · unfold JobService.submit
    rw [hb]
    simp
  · unfold JobService.submitStore JobService.submit
    rw [hb]
    simp

theorem submit_invalid_witness :
    JobService.submit [] 11 7 42 = Except.error ServiceError.validation ∧
    JobService.submitStore [] 11 7 42 = [] :=
  submit_invalid_rejected_no_row [] 11 7 42 (by decide)

/-- C4: session scope semantics — a normally returning body has all its
buffered writes committed; an exception escaping the body rolls every write
of the scope back (the committed store is unchanged) and the same exception is
re-raised; a cancelled body also commits nothing; and on every exit path the
connection is returned to the pool. -/
theorem session_scope_commit_rollback_release {α : Type} (db : Store)
    (body : Store → List Write × SessionExit α) :
    (∀ ws a, body db = (ws, SessionExit.normal a) →
      DatabaseSessionManager.session db body =
        (ws.foldl applyWrite db, SessionExit.normal a, true)) ∧
    (∀ ws e, body db = (ws, SessionExit.raised e) →
      DatabaseSessionManager.session db body = (db, SessionExit.raised e, true)) ∧
    (∀ ws, body db = (ws, SessionExit.cancelled) →
      DatabaseSessionManager.session db body = (db, SessionExit.cancelled, true)) ∧
    (DatabaseSessionManager.session db body).2.2 = true := by
  refine ⟨?_, ?_, ?_, ?_⟩
  · intro ws a h
    unfold DatabaseSessionManager.session
    rw [h]
  · intro ws e h
    unfold DatabaseSessionManager.session
    rw [h]
  · intro ws h
    unfold DatabaseSessionManager.session
    rw [h]
  · unfold DatabaseSessionManager.session
    rcases body db with ⟨ws, ex⟩
    cases ex <;> rfl

theorem session_scope_witness :
    DatabaseSessionManager.session [] bodyOkW =
      ([Write.createRow 5 3 1].foldl applyWrite [], SessionExit.normal 0, true) ∧
    DatabaseSessionManager.session [] bodyRaiseW =
      ([], SessionExit.raised ("boom"), true) :=
  ⟨(session_scope_commit_rollback_release [] bodyOkW).1 [Write.createRow 5 3 1] 0 rfl,
   (session_scope_commit_rollback_release [] bodyRaiseW).2.1 [Write.createRow 5 3 1]
     ("boom") rfl⟩

/-- C5: the worker's poll loop cannot be terminated by anything below it —
whenever the loop returns, it did so because the shutdown signal was up at
that iteration; as long as no shutdown is signalled the loop keeps iterating
for any body whatsoever, including bodies that raise at every iteration; and
an iteration whose body raises proceeds to the next iteration with the store
unchanged (log and continue). -/
theorem poll_loop_survives_exceptions (body : Nat → Store → Except String Store)
    (shutdownAt : Nat → Bool) :
    (∀ fuel k st st₂ k₂,
      AsyncImageWorker.run body shutdownAt fuel k st = some (st₂, k₂) →
      shutdownAt k₂ = true) ∧
    (∀ fuel k st, (∀ m, m < fuel → shutdownAt (k + m) = false) →
      AsyncImageWorker.run body shutdownAt fuel k st = none) ∧
    (∀ k st e, body k st = Except.error e →
      AsyncImageWorker.loopStep body k st = st) := by
  refine ⟨?_, ?_, ?_⟩
  · intro fuel
    induction fuel with
    | zero => intro k st st₂ k₂ h; exact absurd h (by simp [AsyncImageWorker.run])
    | succ f ih =>
      intro k st st₂ k₂ h
      unfold AsyncImageWorker.run at h
      by_cases hs : shutdownAt k = true
      · rw [if_pos hs] at h
        have : st = st₂ ∧ k = k₂ := by
          have h₂ := Option.some.inj h
          exact ⟨congrArg Prod.fst h₂, congrArg Prod.snd h₂⟩
        rw [← this.2]
        exact hs
      · rw [if_neg hs] at h
        exact ih (k + 1) (AsyncImageWorker.loopStep body k st) st₂ k₂ h
  · intro fuel
    induction fuel with
    | zero => intro k st _; rfl
    | succ f ih =>
      intro k st h
      unfold AsyncImageWorker.run
      have h0 : shutdownAt k = false := by
        have := h 0 (Nat.succ_pos f)
        simpa using this
      rw [if_neg (by simp [h0])]
      exact ih (k + 1) (AsyncImageWorker.loopStep body k st)
        (fun m hm => by
          have := h (m + 1) (Nat.succ_lt_succ hm)
          simpa [Nat.add_assoc, Nat.add_comm 1 m] using this)
  · intro k st e h
    unfold AsyncImageWorker.loopStep
    rw [h]

theorem poll_loop_witness :
    shutdownAtTwo 2 = true ∧
    AsyncImageWorker.run bodyAlwaysRaises shutdownAtTwo 2 0 [] = none ∧
    AsyncImageWorker.loopStep bodyAlwaysRaises 0 [] = [] :=
  ⟨(poll_loop_survives_exceptions bodyAlwaysRaises shutdownAtTwo).1 5 0 [] [] 2
     (by decide),
   (poll_loop_survives_exceptions bodyAlwaysRaises shutdownAtTwo).2.1 2 0 []
     (by decide),
   (poll_loop_survives_exceptions bodyAlwaysRaises shutdownAtTwo).2.2 0 []
     ("db down") rfl⟩

/-- C10: in the AuthProvider, every reachable state reports
isAuthenticated exactly when the user is non-null and reports 0 credits
whenever the user is null; signIn installs the mock user with 10 credits and
signOut clears the user back to the zero-credit unauthenticated state. -/
theorem auth_provider_invariant :
    (∀ s, AuthProvider.ReachableAuth s →
      ((AuthProvider.isAuthenticated s = true) ↔ s.user ≠ none) ∧
      (s.user = none → AuthProvider.credits s = 0)) ∧
    (∀ s email pw, (AuthProvider.signIn s email pw).user =
        some { id := "1", name := "Test User", email := email, credits := 10 } ∧
      AuthProvider.credits (AuthProvider.signIn s email pw) = 10) ∧
    (∀ s, (AuthProvider.signOut s).user = none ∧
      AuthProvider.credits (AuthProvider.signOut s) = 0) := by
  refine ⟨?_, ?_, ?_⟩
  · intro s _
    constructor
    · cases h : s.user <;> simp [AuthProvider.isAuthenticated, h]
    · intro h
      simp [AuthProvider.credits, h]
  · intro s email pw
    exact ⟨rfl, rfl⟩
  · intro s
    exact ⟨rfl, rfl⟩

/-! ## Worker phase lemmas -/

theorem stepJob_id (p : Provider) (now : Nat) (j : Job) :
    (stepJob p now j).id = j.id := by
  unfold stepJob
  split
  · split <;> apply applyUpdate_id
  · rfl

theorem claimFold_eq (ids : List Nat) (now : Nat) (j : Job) :
    claimFold ids now j =
      if j.id ∈ ids ∧ j.status = Status.pending
      then { j with status := Status.processing, updatedAt := now }
      else j := by
  induction ids generalizing j with
  | nil => simp [claimFold]
  | cons i rest ih =>
    have hstep : claimFold (i :: rest) now j =
        claimFold rest now (applyUpdate i Status.processing none none none now j) := rfl
    rw [hstep]
    by_cases hid : j.id = i
    · by_cases hst : j.status = Status.pending
      · have hup : applyUpdate i Status.processing none none none now j =
            { j with status := Status.processing, updatedAt := now } := by
          unfold applyUpdate
          rw [if_pos (by simp [hid, hst, canTransition])]
          simp
        rw [hup, ih]
        simp [List.mem_cons, hid, hst]
      · have hct : canTransition j.status Status.processing = false := by
          cases hs : j.status
          · exact absurd hs hst
          · rfl
          · rfl
          · rfl
        rw [applyUpdate_not_allowed _ _ _ _ _ _ hct, ih]
        simp [hst]
    · have hup : applyUpdate i Status.processing none none none now j = j := by
        unfold applyUpdate
        rw [if_neg (by simp [hid])]
      rw [hup, ih]
      simp [List.mem_cons, hid]

theorem claimFold_id (ids : List Nat) (now : Nat) (j : Job) :
    (claimFold ids now j).id = j.id := by
  rw [claimFold_eq]
  split <;> rfl

theorem claimPhase_fst (now : Nat) (ids : List Nat) :
    ∀ st : Store,
      (AsyncImageWorker.claimPhase st ids now).1 = st.map (claimFold ids now) := by
  induction ids with
  | nil =>
    intro st
    have h1 : st.map (claimFold [] now) = st := by
      conv_rhs => rw [← List.map_id st]
      exact List.map_congr_left (fun j _ => rfl)
    exact h1.symm
  | cons i rest ih =>
    intro st
    have hcons : (AsyncImageWorker.claimPhase st (i :: rest) now).1 =
        (AsyncImageWorker.claimPhase (AsyncImageWorker.claim st i now).1 rest now).1 := rfl
    rw [hcons, ih]
    have hclaim : (AsyncImageWorker.claim st i now).1 =
        st.map (applyUpdate i Status.processing none none none now) := rfl
    rw [hclaim, List.map_map]
    rfl

theorem claimPhase_snd (now : Nat) (ids : List Nat) :
    ∀ st : Store,
      (AsyncImageWorker.claimPhase st ids now).2 = ids.map Event.claimWrite := by
  induction ids with
  | nil => intro st; rfl
  | cons i rest ih =>
    intro st
    have hcons : (AsyncImageWorker.claimPhase st (i :: rest) now).2 =
        Event.claimWrite i ::
          (AsyncImageWorker.claimPhase (AsyncImageWorker.claim st i now).1 rest now).2 := rfl
    rw [hcons, ih]
    rfl

theorem process_job_fst {st : Store} (p : Provider) (i now : Nat)
    (hnd : (st.map Job.id).Nodup) :
    (AsyncImageWorker.process_job p st i now).1 =
      st.map (fun j => if j.id = i then stepJob p now j else j) := by
  cases hf : JobRepository.get_by_id st i with
  | none =>
    have hno : ∀ j ∈ st, ¬ j.id = i := by
      intro j hj
      have h := List.find?_eq_none.mp hf j hj
      simpa using h
    have h1 : st.map (fun j => if j.id = i then stepJob p now j else j) = st := by
      conv_rhs => rw [← List.map_id st]
      exact List.map_congr_left (fun j hj => by rw [if_neg (hno j hj)]; rfl)
    have h2 : (AsyncImageWorker.process_job p st i now).1 = st := by
      unfold AsyncImageWorker.process_job
      rw [hf]
    rw [h2, h1]
  | some j₀ =>
    have hmem : j₀ ∈ st := List.mem_of_find?_eq_some hf
    have hid : j₀.id = i := by simpa using List.find?_some hf
    have huniq : ∀ j ∈ st, j.id = i → j = j₀ := fun j hj hji =>
      List.inj_on_of_nodup_map hnd hj hmem (by rw [hji, hid])
    have h2 : (AsyncImageWorker.process_job p st i now).1 =
        (AsyncImageWorker.process_fetched p st i now j₀).1 := by
      unfold AsyncImageWorker.process_job
      rw [hf]
    rw [h2]
    by_cases hstat : (j₀.status == Status.processing) = true
    · cases hp : p i j₀.numImages with
      | ok r =>
        have h3 : (AsyncImageWorker.process_fetched p st i now j₀).1 =
            JobRepository.update_status st i Status.completed (some r.1) (some r.2) none now := by
          unfold AsyncImageWorker.process_fetched
          rw [if_pos hstat, hp]
        rw [h3]
        exact List.map_congr_left (fun j hj => by
          by_cases hji : j.id = i
          · have hj₀ : j = j₀ := huniq j hj hji
            subst hj₀
            rw [if_pos hji]
            unfold stepJob
            rw [if_pos hstat, hid, hp]
          · have hb : (j.id == i) = false := by simp [hji]
            rw [if_neg hji]
            unfold applyUpdate
            rw [if_neg (by simp [hb])])
      | error e =>
        have h3 : (AsyncImageWorker.process_fetched p st i now j₀).1 =
            JobRepository.update_status st i Status.failed none none (some e) now := by
          unfold AsyncImageWorker.process_fetched
          rw [if_pos hstat, hp]
        rw [h3]
        exact List.map_congr_left (fun j hj => by
          by_cases hji : j.id = i
          · have hj₀ : j = j₀ := huniq j hj hji
            subst hj₀
            rw [if_pos hji]
            unfold stepJob
            rw [if_pos hstat, hid, hp]
          · have hb : (j.id == i) = false := by simp [hji]
            rw [if_neg hji]
            unfold applyUpdate
            rw [if_neg (by simp [hb])])
    · have h3 : (AsyncImageWorker.process_fetched p st i now j₀).1 = st := by
        unfold AsyncImageWorker.process_fetched
        rw [if_neg hstat]
      rw [h3]
      have h1 : st.map (fun j => if j.id = i then stepJob p now j else j) = st := by
        conv_rhs => rw [← List.map_id st]
        exact List.map_congr_left (fun j hj => by
          by_cases hji : j.id = i
          · have hj₀ : j = j₀ := huniq j hj hji
            subst hj₀
            rw [if_pos hji]
            unfold stepJob
            rw [if_neg hstat]
            rfl
          · rw [if_neg hji]; rfl)
      rw [h1]

/-! ## Pending-listing lemmas -/

theorem pend_perm (st : Store) :
    (JobRepository.get_pending_jobs st none).Perm
      (st.filter (fun j => j.status == Status.pending)) :=
  List.perm_insertionSort JobRepository.createdLe _

theorem mem_pend_elim {st : Store} {j : Job}
    (h : j ∈ JobRepository.get_pending_jobs st none) :
    j ∈ st ∧ j.status = Status.pending := by
  have h₂ := (pend_perm st).mem_iff.mp h
  have h₃ := List.mem_filter.mp h₂
  exact ⟨h₃.1, by simpa using h₃.2⟩

theorem mem_pend_intro {st : Store} {j : Job} (hj : j ∈ st)
    (hp : j.status = Status.pending) :
    j ∈ JobRepository.get_pending_jobs st none :=
  (pend_perm st).mem_iff.mpr (List.mem_filter.mpr ⟨hj, by simp [hp]⟩)

theorem pendingIds_nodup {st : Store} (hnd : (st.map Job.id).Nodup) :
    (AsyncImageWorker.pendingIds st).Nodup := by
  have hperm : (AsyncImageWorker.pendingIds st).Perm
      ((st.filter (fun j => j.status == Status.pending)).map Job.id) :=
    (pend_perm st).map Job.id
  have hsub : ((st.filter (fun j => j.status == Status.pending)).map Job.id).Sublist
      (st.map Job.id) := (List.filter_sublist st).map Job.id
  exact hperm.nodup_iff.mpr (hsub.nodup hnd)

theorem mem_pendingIds_elim {st : Store} {i : Nat}
    (h : i ∈ AsyncImageWorker.pendingIds st) :
    ∃ j ∈ st, j.id = i ∧ j.status = Status.pending := by
  rcases List.mem_map.mp h with ⟨j, hj, hid⟩
  rcases mem_pend_elim hj with ⟨hjst, hjp⟩
  exact ⟨j, hjst, hid, hjp⟩

theorem mem_pendingIds_intro {st : Store} {j : Job} (hj : j ∈ st)
    (hp : j.status = Status.pending) : j.id ∈ AsyncImageWorker.pendingIds st :=
  List.mem_map.mpr ⟨j, mem_pend_intro hj hp, rfl⟩

theorem pending_of_mem_pendingIds {st : Store} {j : Job}
    (hnd : (st.map Job.id).Nodup) (hj : j ∈ st)
    (h : j.id ∈ AsyncImageWorker.pendingIds st) : j.status = Status.pending := by
  rcases mem_pendingIds_elim h with ⟨jp, hjp, hideq, hstat⟩
  have heq : jp = j := List.inj_on_of_nodup_map hnd hjp hj hideq
  exact heq ▸ hstat

/-! ## Whole-cycle characterization -/

theorem processPhase_fst (p : Provider) (now : Nat) (ids : List Nat) :
    ∀ st : Store, ids.Nodup → (st.map Job.id).Nodup →
      (AsyncImageWorker.processPhase p st ids now).1 =
        st.map (fun j => if j.id ∈ ids then stepJob p now j else j) := by
  induction ids with
  | nil =>
    intro st _ _
    have h1 : st.map (fun j => if j.id ∈ ([] : List Nat) then stepJob p now j else j) = st := by
      conv_rhs => rw [← List.map_id st]
      exact List.map_congr_left (fun j _ => by simp)
    exact h1.symm
  | cons i rest ih =>
    intro st hids hnd
    have hcons := List.nodup_cons.mp hids
    have hst₁ : (AsyncImageWorker.process_job p st i now).1 =
        st.map (fun j => if j.id = i then stepJob p now j else j) :=
      process_job_fst p i now hnd
    have hidpres : ((AsyncImageWorker.process_job p st i now).1).map Job.id =
        st.map Job.id := by
      rw [hst₁, List.map_map]
      exact List.map_congr_left (fun j _ => by
        by_cases hji : j.id = i
        · simp [Function.comp, hji, stepJob_id]
        · simp [Function.comp, hji])
    have hgoal : (AsyncImageWorker.processPhase p st (i :: rest) now).1 =
        (AsyncImageWorker.processPhase p
          (AsyncImageWorker.process_job p st i now).1 rest now).1 := rfl
    rw [hgoal, ih _ hcons.2 (by rw [hidpres]; exact hnd), hst₁, List.map_map]
    exact List.map_congr_left (fun j _ => by
      by_cases hji : j.id = i
      · simp [Function.comp, hji, stepJob_id, hcons.1]
      · by_cases hjr : j.id ∈ rest
        · simp [Function.comp, hji, hjr]
        · simp [Function.comp, hji, hjr])

theorem process_pending_jobs_fst (p : Provider) (st : Store) (now : Nat)
    (hnd : (st.map Job.id).Nodup) :
    (AsyncImageWorker.process_pending_jobs p st now).1 =
      st.map (fun j =>
        if j.id ∈ AsyncImageWorker.pendingIds st then cycleStep p now j else j) := by
  have hfst : (AsyncImageWorker.process_pending_jobs p st now).1 =
      (AsyncImageWorker.processPhase p
        (AsyncImageWorker.claimPhase st (AsyncImageWorker.pendingIds st) now).1
        (AsyncImageWorker.pendingIds st) now).1 := rfl
  rw [hfst, claimPhase_fst]
  have hidpres : ((st.map (claimFold (AsyncImageWorker.pendingIds st) now)).map Job.id) =
      st.map Job.id := by
    rw [List.map_map]
    exact List.map_congr_left (fun j _ => by simp [Function.comp, claimFold_id])
  rw [processPhase_fst p now _ _ (pendingIds_nodup hnd) (by rw [hidpres]; exact hnd),
    List.map_map]
  exact List.map_congr_left (fun j hj => by
    by_cases hm : j.id ∈ AsyncImageWorker.pendingIds st
    · have hp : j.status = Status.pending := pending_of_mem_pendingIds hnd hj hm
      simp [Function.comp, claimFold_eq, hm, hp, cycleStep]
    · simp [Function.comp, claimFold_eq, hm])

theorem cycleStep_ok {p : Provider} {j : Job} {r : String × List String}
    (now : Nat) (hp : p j.id j.numImages = Except.ok r) :
    cycleStep p now j =
      { j with
        status := Status.completed
        animal := some r.1
        imageUrls := r.2
        updatedAt := now } := by
  unfold cycleStep stepJob
  simp only [hp]
  rw [if_pos (by simp)]
  unfold applyUpdate
  rw [if_pos (by simp [canTransition])]
  simp

theorem cycleStep_err {p : Provider} {j : Job} {e : String}
    (now : Nat) (hp : p j.id j.numImages = Except.error e) :
    cycleStep p now j =
      { j with status := Status.failed, error := some e, updatedAt := now } := by
  unfold cycleStep stepJob
  simp only [hp]
  rw [if_pos (by simp)]
  unfold applyUpdate
  rw [if_pos (by simp [canTransition])]
  simp

/-! ## Trace lemmas -/

theorem process_job_snd_events (p : Provider) (st : Store) (i now : Nat) :
    ∀ e ∈ (AsyncImageWorker.process_job p st i now).2,
      Event.isClaim e = false ∧ Event.jobId e = i := by
  intro e he
  cases hf : JobRepository.get_by_id st i with
  | none =>
    have h0 : (AsyncImageWorker.process_job p st i now).2 = [] := by
      unfold AsyncImageWorker.process_job
      rw [hf]
    rw [h0] at he
    exact absurd he (List.not_mem_nil e)
  | some j =>
    have hpj : (AsyncImageWorker.process_job p st i now).2 =
        (AsyncImageWorker.process_fetched p st i now j).2 := by
      unfold AsyncImageWorker.process_job
      rw [hf]
    rw [hpj] at he
    by_cases hstat : (j.status == Status.processing) = true
    · cases hp : p i j.numImages with
      | ok r =>
        have h2 : (AsyncImageWorker.process_fetched p st i now j).2 =
            [Event.providerCall i, Event.storageCall i,
             Event.terminalWrite i Status.completed] := by
          unfold AsyncImageWorker.process_fetched
          rw [if_pos hstat, hp]
        rw [h2] at he
        simp only [List.mem_cons, List.not_mem_nil, or_false] at he
        rcases he with rfl | rfl | rfl <;> exact ⟨rfl, rfl⟩
      | error e₂ =>
        have h2 : (AsyncImageWorker.process_fetched p st i now j).2 =
            [Event.providerCall i, Event.terminalWrite i Status.failed] := by
          unfold AsyncImageWorker.process_fetched
          rw [if_pos hstat, hp]
        rw [h2] at he
        simp only [List.mem_cons, List.not_mem_nil, or_false] at he
        rcases he with rfl | rfl <;> exact ⟨rfl, rfl⟩
    · have h2 : (AsyncImageWorker.process_fetched p st i now j).2 = [] := by
        unfold AsyncImageWorker.process_fetched
        rw [if_neg hstat]
      rw [h2] at he
      exact absurd he (List.not_mem_nil e)

theorem processPhase_snd_events (p : Provider) (now : Nat) (ids : List Nat) :
    ∀ st : Store, ∀ e ∈ (AsyncImageWorker.processPhase p st ids now).2,
      Event.isClaim e = false ∧ Event.jobId e ∈ ids := by
  induction ids with
  | nil =>
    intro st e he
    exact absurd he (List.not_mem_nil e)
  | cons i rest ih =>
    intro st e he
    have hsplit : (AsyncImageWorker.processPhase p st (i :: rest) now).2 =
        (AsyncImageWorker.process_job p st i now).2 ++
          (AsyncImageWorker.processPhase p
            (AsyncImageWorker.process_job p st i now).1 rest now).2 := rfl
    rw [hsplit] at he
    rcases List.mem_append.mp he with h | h
    · rcases process_job_snd_events p st i now e h with ⟨h1, h2⟩
      exact ⟨h1, by rw [h2]; exact List.mem_cons_self i rest⟩
    · rcases ih _ e h with ⟨h1, h2⟩
      exact ⟨h1, List.mem_cons_of_mem i h2⟩

theorem process_pending_jobs_snd (p : Provider) (st : Store) (now : Nat) :
    (AsyncImageWorker.process_pending_jobs p st now).2 =
      (AsyncImageWorker.pendingIds st).map Event.claimWrite ++
        (AsyncImageWorker.processPhase p
          (AsyncImageWorker.claimPhase st (AsyncImageWorker.pendingIds st) now).1
          (AsyncImageWorker.pendingIds st) now).2 := by
  have h : (AsyncImageWorker.process_pending_jobs p st now).2 =
      (AsyncImageWorker.claimPhase st (AsyncImageWorker.pendingIds st) now).2 ++
        (AsyncImageWorker.processPhase p
          (AsyncImageWorker.claimPhase st (AsyncImageWorker.pendingIds st) now).1
          (AsyncImageWorker.pendingIds st) now).2 := rfl
  rw [h, claimPhase_snd]

theorem claim_precedes_general {ids : List Nat} {work l₁ l₂ : List Event} {e : Event}
    (hwork : ∀ x ∈ work, Event.isClaim x = false ∧ Event.jobId x ∈ ids)
    (he : Event.isClaim e = false)
    (hsplit : ids.map Event.claimWrite ++ work = l₁ ++ e :: l₂) :
    Event.claimWrite (Event.jobId e) ∈ l₁ := by
  rcases List.append_eq_append_iff.mp hsplit with ⟨a₂, ha₁, ha₂⟩ | ⟨c₂, hc₁, hc₂⟩
  · have hew : e ∈ work := by
      rw [ha₂]
      exact List.mem_append.mpr (Or.inr (List.mem_cons_self e l₂))
    have hid : Event.jobId e ∈ ids := (hwork e hew).2
    rw [ha₁]
    exact List.mem_append.mpr (Or.inl (List.mem_map.mpr ⟨_, hid, rfl⟩))
  · cases c₂ with
    | nil =>
      have hmap : ids.map Event.claimWrite = l₁ := by simpa using hc₁
      have hwk : e :: l₂ = work := by simpa using hc₂
      have hew : e ∈ work := by
        rw [← hwk]
        exact List.mem_cons_self e l₂
      have hid : Event.jobId e ∈ ids := (hwork e hew).2
      rw [← hmap]
      exact List.mem_map.mpr ⟨_, hid, rfl⟩
    | cons x c₃ =>
      rw [List.cons_append] at hc₂
      injection hc₂ with hx _
      have hxm : x ∈ ids.map Event.claimWrite := by
        rw [hc₁]
        exact List.mem_append.mpr (Or.inr (List.mem_cons_self x c₃))
      rcases List.mem_map.mp hxm with ⟨i₀, _, hi₀⟩
      rw [hx] at he
      rw [← hi₀] at he
      simp [Event.isClaim] at he

theorem count_claim_trace (p : Provider) (st : Store) (now : Nat) (i : Nat) :
    ((AsyncImageWorker.process_pending_jobs p st now).2).count (Event.claimWrite i) =
      (AsyncImageWorker.pendingIds st).count i := by
  rw [process_pending_jobs_snd, List.count_append]
  have h0 : ((AsyncImageWorker.processPhase p
      (AsyncImageWorker.claimPhase st (AsyncImageWorker.pendingIds st) now).1
      (AsyncImageWorker.pendingIds st) now).2).count (Event.claimWrite i) = 0 := by
    rw [List.count_eq_zero]
    intro hmem
    have h1 := (processPhase_snd_events p now _ _ (Event.claimWrite i) hmem).1
    simp [Event.isClaim] at h1
  rw [h0, Nat.add_zero]
  exact List.count_map_of_injective _ _ (fun a b hab => Event.claimWrite.inj hab) i

theorem cycleStep_id (p : Provider) (now : Nat) (j : Job) :
    (cycleStep p now j).id = j.id :=
  stepJob_id p now _

theorem process_pending_jobs_id_nodup (p : Provider) (st : Store) (now : Nat)
    (hnd : (st.map Job.id).Nodup) :
    (((AsyncImageWorker.process_pending_jobs p st now).1).map Job.id).Nodup := by
  rw [process_pending_jobs_fst p st now hnd, List.map_map]
  have h : st.map (Job.id ∘ fun j =>
      if j.id ∈ AsyncImageWorker.pendingIds st then cycleStep p now j else j) =
      st.map Job.id :=
    List.map_congr_left (fun j _ => by
      by_cases hmem : j.id ∈ AsyncImageWorker.pendingIds st
      · simp [Function.comp, hmem, cycleStep_id]
      · simp [Function.comp, hmem])
  rw [h]
  exact hnd

theorem pendingIds_next_disjoint (p : Provider) (st : Store) (t₁ : Nat)
    (hnd : (st.map Job.id).Nodup) (i : Nat)
    (h : i ∈ AsyncImageWorker.pendingIds
      (AsyncImageWorker.process_pending_jobs p st t₁).1) :
    i ∉ AsyncImageWorker.pendingIds st := by
  intro hmem₁
  rcases mem_pendingIds_elim h with ⟨j₂, hj₂, hid₂, hp₂⟩
  rw [process_pending_jobs_fst p st t₁ hnd] at hj₂
  rcases List.mem_map.mp hj₂ with ⟨j, hj, hfj⟩
  by_cases hm : j.id ∈ AsyncImageWorker.pendingIds st
  · rw [if_pos hm] at hfj
    cases hpp : p j.id j.numImages with
    | ok r =>
      rw [cycleStep_ok t₁ hpp] at hfj
      rw [← hfj] at hp₂
      simp at hp₂
    | error e =>
      rw [cycleStep_err t₁ hpp] at hfj
      rw [← hfj] at hp₂
      simp at hp₂
  · rw [if_neg hm] at hfj
    rw [← hfj] at hid₂
    rw [hid₂] at hm
    exact hm hmem₁

/-- C1: in one poll cycle, every fetched pending job receives a claim write
(status := processing), and in the cycle's trace that claim write precedes any
provider call and any storage call for that job; moreover, across two
consecutive poll cycles, no job id is ever claimed twice. -/
theorem claim_before_dispatch_and_no_double_claim
    (p₁ p₂ : Provider) (st : Store) (t₁ t₂ : Nat)
    (hnd : (st.map Job.id).Nodup) :
    (∀ i ∈ AsyncImageWorker.pendingIds st,
      Event.claimWrite i ∈ (AsyncImageWorker.process_pending_jobs p₁ st t₁).2) ∧
    (∀ i l₁ l₂,
      (AsyncImageWorker.process_pending_jobs p₁ st t₁).2 =
        l₁ ++ Event.providerCall i :: l₂ → Event.claimWrite i ∈ l₁) ∧
    (∀ i l₁ l₂,
      (AsyncImageWorker.process_pending_jobs p₁ st t₁).2 =
        l₁ ++ Event.storageCall i :: l₂ → Event.claimWrite i ∈ l₁) ∧
    (∀ i,
      ((AsyncImageWorker.process_pending_jobs p₁ st t₁).2 ++
        (AsyncImageWorker.process_pending_jobs p₂
          (AsyncImageWorker.process_pending_jobs p₁ st t₁).1 t₂).2).count
        (Event.claimWrite i) ≤ 1) := by
  refine ⟨?_, ?_, ?_, ?_⟩
  · intro i hi
    rw [process_pending_jobs_snd]
    exact List.mem_append.mpr (Or.inl (List.mem_map.mpr ⟨i, hi, rfl⟩))
  · intro i l₁ l₂ hsplit
    rw [process_pending_jobs_snd] at hsplit
    refine claim_precedes_general (processPhase_snd_events p₁ t₁ _ _) ?_ hsplit
    rfl
  · intro i l₁ l₂ hsplit
    rw [process_pending_jobs_snd] at hsplit
    refine claim_precedes_general (processPhase_snd_events p₁ t₁ _ _) ?_ hsplit
    rfl
  · intro i
    rw [List.count_append, count_claim_trace, count_claim_trace]
    by_cases hmem : i ∈ AsyncImageWorker.pendingIds
        (AsyncImageWorker.process_pending_jobs p₁ st t₁).1
    · have hnot : i ∉ AsyncImageWorker.pendingIds st :=
        pendingIds_next_disjoint p₁ st t₁ hnd i hmem
      have h₁ : (AsyncImageWorker.pendingIds st).count i = 0 :=
        List.count_eq_zero.mpr hnot
      have h₂ : (AsyncImageWorker.pendingIds
          (AsyncImageWorker.process_pending_jobs p₁ st t₁).1).count i ≤ 1 :=
        List.nodup_iff_count_le_one.mp
          (pendingIds_nodup (process_pending_jobs_id_nodup p₁ st t₁ hnd)) i
      omega
    · have h₂ : (AsyncImageWorker.pendingIds
          (AsyncImageWorker.process_pending_jobs p₁ st t₁).1).count i = 0 :=
        List.count_eq_zero.mpr hmem
      have h₁ : (AsyncImageWorker.pendingIds st).count i ≤ 1 :=
        List.nodup_iff_count_le_one.mp (pendingIds_nodup hnd) i
      omega

theorem claim_witness :
    Event.claimWrite 2 ∈ (AsyncImageWorker.process_pending_jobs provMixW fanStoreW 9).2 ∧
    Event.claimWrite 2 ∈ [Event.claimWrite 2, Event.claimWrite 3] ∧
    ((AsyncImageWorker.process_pending_jobs provMixW fanStoreW 9).2 ++
      (AsyncImageWorker.process_pending_jobs provMixW
        (AsyncImageWorker.process_pending_jobs provMixW fanStoreW 9).1 10).2).count
      (Event.claimWrite 2) ≤ 1 :=
  ⟨(claim_before_dispatch_and_no_double_claim provMixW provMixW fanStoreW 9 10
      (by decide)).1 2 (by decide),
   (claim_before_dispatch_and_no_double_claim provMixW provMixW fanStoreW 9 10
      (by decide)).2.1 2 [Event.claimWrite 2, Event.claimWrite 3]
      [Event.terminalWrite 2 Status.failed, Event.providerCall 3,
       Event.storageCall 3, Event.terminalWrite 3 Status.completed] (by decide),
   (claim_before_dispatch_and_no_double_claim provMixW provMixW fanStoreW 9 10
      (by decide)).2.2.2 2⟩

/-- C3: dispatching the K fetched pending jobs of one poll cycle yields
exactly K terminal jobs — the store keeps its size, every fetched pending job
ends the cycle in a terminal state decided purely by its own provider outcome
(completed on success, failed on a raised provider error), and every row not
fetched by the cycle is left untouched, so one job's failure neither aborts
nor rolls back a sibling's work. -/
theorem fanout_exactly_k_terminal (p : Provider) (st : Store) (now : Nat)
    (hnd : (st.map Job.id).Nodup) :
    ((AsyncImageWorker.process_pending_jobs p st now).1).length = st.length ∧
    (∀ j ∈ JobRepository.get_pending_jobs st none,
      ∃ j₂ ∈ (AsyncImageWorker.process_pending_jobs p st now).1,
        j₂.id = j.id ∧ j₂.numImages = j.numImages ∧
        j₂.status = (match p j.id j.numImages with
          | Except.ok _ => Status.completed
          | Except.error _ => Status.failed) ∧
        j₂.status.isTerminal = true) ∧
    (∀ j ∈ st, j.id ∉ AsyncImageWorker.pendingIds st →
      j ∈ (AsyncImageWorker.process_pending_jobs p st now).1) := by
  have hm := process_pending_jobs_fst p st now hnd
  refine ⟨?_, ?_, ?_⟩
  · rw [hm, List.length_map]
  · intro j hj
    rcases mem_pend_elim hj with ⟨hjst, hjp⟩
    have hid : j.id ∈ AsyncImageWorker.pendingIds st := mem_pendingIds_intro hjst hjp
    refine ⟨cycleStep p now j, ?_, cycleStep_id p now j, ?_, ?_, ?_⟩
    · rw [hm]
      refine List.mem_map.mpr ⟨j, hjst, ?_⟩
      rw [if_pos hid]
    · cases hpp : p j.id j.numImages with
      | ok r => rw [cycleStep_ok now hpp]
      | error e => rw [cycleStep_err now hpp]
    · cases hpp : p j.id j.numImages with
      | ok r => rw [cycleStep_ok now hpp]
      | error e => rw [cycleStep_err now hpp]
    · cases hpp : p j.id j.numImages with
      | ok r => rw [cycleStep_ok now hpp]; rfl
      | error e => rw [cycleStep_err now hpp]; rfl
  · intro j hj hnot
    rw [hm]
    refine List.mem_map.mpr ⟨j, hj, ?_⟩
    rw [if_neg hnot]

theorem fanout_witness :
    ((AsyncImageWorker.process_pending_jobs provMixW fanStoreW 9).1).length =
      fanStoreW.length ∧
    (∃ j₂ ∈ (AsyncImageWorker.process_pending_jobs provMixW fanStoreW 9).1,
      j₂.id = jobPendOldW.id ∧ j₂.numImages = jobPendOldW.numImages ∧
      j₂.status = (match provMixW jobPendOldW.id jobPendOldW.numImages with
        | Except.ok _ => Status.completed
        | Except.error _ => Status.failed) ∧
      j₂.status.isTerminal = true) ∧
    (∃ j₂ ∈ (AsyncImageWorker.process_pending_jobs provMixW fanStoreW 9).1,
      j₂.id = jobPendNewW.id ∧ j₂.numImages = jobPendNewW.numImages ∧
      j₂.status = (match provMixW jobPendNewW.id jobPendNewW.numImages with
        | Except.ok _ => Status.completed
        | Except.error _ => Status.failed) ∧
      j₂.status.isTerminal = true) :=
  ⟨(fanout_exactly_k_terminal provMixW fanStoreW 9 (by decide)).1,
   (fanout_exactly_k_terminal provMixW fanStoreW 9 (by decide)).2.1
     jobPendOldW (by decide),
   (fanout_exactly_k_terminal provMixW fanStoreW 9 (by decide)).2.1
     jobPendNewW (by decide)⟩

/-- C8: the pending listing returns exactly the rows whose status is pending
(it is a permutation of the pending filter of the table, and every returned
row is a pending row of the table), sorted by createdAt ascending, and a
given limit truncates that sorted listing to at most limit entries. -/
theorem get_pending_jobs_spec (st : Store) :
    (∀ limit : Option Nat, ∀ j ∈ JobRepository.get_pending_jobs st limit,
      j ∈ st ∧ j.status = Status.pending) ∧
    (∀ limit : Option Nat,
      List.Sorted JobRepository.createdLe (JobRepository.get_pending_jobs st limit)) ∧
    (JobRepository.get_pending_jobs st none).Perm
      (st.filter (fun j => j.status == Status.pending)) ∧
    (∀ k : Nat, JobRepository.get_pending_jobs st (some k) =
      (JobRepository.get_pending_jobs st none).take k) ∧
    (∀ k : Nat, (JobRepository.get_pending_jobs st (some k)).length ≤ k) := by
  have hsorted : List.Sorted JobRepository.createdLe
      (JobRepository.get_pending_jobs st none) :=
    List.sorted_insertionSort JobRepository.createdLe _
  refine ⟨?_, ?_, pend_perm st, fun k => rfl, fun k => List.length_take_le k _⟩
  · intro limit j hj
    cases limit with
    | none => exact mem_pend_elim hj
    | some k => exact mem_pend_elim (List.mem_of_mem_take hj)
  · intro limit
    cases limit with
    | none => exact hsorted
    | some k => exact List.Pairwise.sublist (List.take_sublist k _) hsorted

theorem get_pending_jobs_witness :
    (JobRepository.get_pending_jobs listStoreW none).Perm
      (listStoreW.filter (fun j => j.status == Status.pending)) ∧
    JobRepository.get_pending_jobs listStoreW (some 1) =
      (JobRepository.get_pending_jobs listStoreW none).take 1 ∧
    (JobRepository.get_pending_jobs listStoreW (some 1)).length ≤ 1 ∧
    (jobPendOldW ∈ listStoreW ∧ jobPendOldW.status = Status.pending) :=
  ⟨(get_pending_jobs_spec listStoreW).2.2.1,
   (get_pending_jobs_spec listStoreW).2.2.2.1 1,
   (get_pending_jobs_spec listStoreW).2.2.2.2 1,
   (get_pending_jobs_spec listStoreW).1 none jobPendOldW (by decide)⟩

/-! ## Reachability invariant (C9) -/

theorem jobWf_pending_fields {j : Job} (hwf : jobWf j)
    (hs : j.status = Status.pending) :
    j.imageUrls = [] ∧ j.animal = none ∧ j.error = none := by
  unfold jobWf at hwf
  rw [hs] at hwf
  exact hwf

theorem jobWf_consistent {j : Job} (h : jobWf j) : jobConsistent j := by
  unfold jobWf at h
  unfold jobConsistent
  cases hs : j.status with
  | pending =>
    rw [hs] at h
    refine ⟨fun hc => Status.noConfusion hc, fun hc => Status.noConfusion hc, ?_⟩
    rw [h.2.2]
    simp
  | processing =>
    rw [hs] at h
    refine ⟨fun hc => Status.noConfusion hc, fun hc => Status.noConfusion hc, ?_⟩
    rw [h.2.2]
    simp
  | completed =>
    rw [hs] at h
    refine ⟨fun _ => ⟨h.1, h.2.1⟩, fun hc => Status.noConfusion hc, ?_⟩
    rw [h.2.2]
    simp
  | failed =>
    rw [hs] at h
    refine ⟨fun hc => Status.noConfusion hc, fun _ => h, ?_⟩
    rcases h.2 with ⟨e, he, _⟩
    rw [he]
    simp

theorem submitStore_eq_of_valid {st : Store} {n newId now : Nat}
    (hv : (1 ≤ n && n ≤ MAX_IMAGES_PER_JOB) = true) :
    JobService.submitStore st n newId now =
      st ++ [{ id := newId, status := Status.pending, numImages := n,
               animal := none, imageUrls := [], error := none,
               createdAt := now, updatedAt := now }] := by
  unfold JobService.submitStore JobService.submit
  rw [if_pos hv]
  rfl

theorem submitStore_eq_of_invalid {st : Store} {n newId now : Nat}
    (hv : (1 ≤ n && n ≤ MAX_IMAGES_PER_JOB) = false) :
    JobService.submitStore st n newId now = st := by
  unfold JobService.submitStore JobService.submit
  rw [if_neg (by simp [hv])]

theorem submitStore_wf {st : Store} {newId : Nat} (n now : Nat)
    (h : storeWf st) (hfresh : newId ∉ st.map Job.id) :
    storeWf (JobService.submitStore st n newId now) := by
  by_cases hv : (1 ≤ n && n ≤ MAX_IMAGES_PER_JOB) = true
  · rw [submitStore_eq_of_valid hv]
    constructor
    · rw [List.map_append]
      rw [List.nodup_append]
      refine ⟨h.1, by simp, ?_⟩
      intro a ha hb
      have hb₂ : a = newId := by simpa using hb
      rw [hb₂] at ha
      exact hfresh ha
    · intro j hj
      rcases List.mem_append.mp hj with hj | hj
      · exact h.2 j hj
      · rw [List.mem_singleton] at hj
        rw [hj]
        exact ⟨rfl, rfl, rfl⟩
  · have hv₂ : (1 ≤ n && n ≤ MAX_IMAGES_PER_JOB) = false := by simpa using hv
    rw [submitStore_eq_of_invalid hv₂]
    exact h

theorem poll_wf {st : Store} {p : Provider} (now : Nat)
    (h : storeWf st) (hp : ProviderOK p) :
    storeWf (AsyncImageWorker.process_pending_jobs p st now).1 := by
  have hm := process_pending_jobs_fst p st now h.1
  constructor
  · exact process_pending_jobs_id_nodup p st now h.1
  · intro j₂ hj₂
    rw [hm] at hj₂
    rcases List.mem_map.mp hj₂ with ⟨j, hj, hfj⟩
    by_cases hmem : j.id ∈ AsyncImageWorker.pendingIds st
    · rw [if_pos hmem] at hfj
      have hjp : j.status = Status.pending := pending_of_mem_pendingIds h.1 hj hmem
      rcases jobWf_pending_fields (h.2 j hj) hjp with ⟨hu, ha, he⟩
      cases hpp : p j.id j.numImages with
      | ok r =>
        rw [cycleStep_ok now hpp] at hfj
        rw [← hfj]
        have hlen : r.2.length = j.numImages ∧ r.1 ≠ "" :=
          (hp j.id j.numImages).1 r.1 r.2 (by rw [hpp])
        exact ⟨hlen.1, ⟨r.1, rfl, hlen.2⟩, he⟩
      | error e₂ =>
        rw [cycleStep_err now hpp] at hfj
        rw [← hfj]
        have hne : e₂ ≠ "" := (hp j.id j.numImages).2 e₂ hpp
        exact ⟨hu, ⟨e₂, rfl, hne⟩⟩
    · rw [if_neg hmem] at hfj
      rw [← hfj]
      exact h.2 j hj

theorem reachable_wf {st : Store} (h : Reachable st) : storeWf st := by
  induction h with
  | init => exact ⟨List.nodup_nil, fun j hj => absurd hj (List.not_mem_nil j)⟩
  | submit nImages newId now hfresh hr ih => exact submitStore_wf nImages now ih hfresh
  | poll now hp hr ih => exact poll_wf now ih hp

/-- C9: every job in a reachable persisted state satisfies the terminal-field
consistency invariant — completed jobs carry exactly numImages urls and a
non-empty animal, failed jobs carry no urls and a non-empty error, and error
is set exactly on failed jobs. -/
theorem reachable_jobs_consistent {st : Store} (h : Reachable st) :
    ∀ j ∈ st, jobConsistent j :=
  fun j hj => jobWf_consistent ((reachable_wf h).2 j hj)

theorem provOkW_ok : ProviderOK provOkW := by
  intro i n
  constructor
  · intro a urls h
    unfold provOkW at h
    have h₂ := Except.ok.inj h
    have ha : a = "bear" := by
      have := congrArg Prod.fst h₂
      simpa using this.symm
    have hu : urls = List.replicate n ("img") := by
      have := congrArg Prod.snd h₂
      simpa using this.symm
    subst ha
    subst hu
    exact ⟨List.length_replicate n ("img"), by simp⟩
  · intro e h
    unfold provOkW at h
    exact Except.noConfusion h

theorem reachable_jobs_consistent_witness : jobConsistent jobFinalW :=
  reachable_jobs_consistent
    (Reachable.poll 1 provOkW_ok
      (Reachable.submit 2 0 0 (by simp) Reachable.init))
    jobFinalW (by decide)

theorem auth_provider_invariant_witness :
    ((AuthProvider.isAuthenticated AuthProvider.initState = true) ↔
      AuthProvider.initState.user ≠ none) ∧
    (AuthProvider.initState.user = none →
      AuthProvider.credits AuthProvider.initState = 0) :=
  auth_provider_invariant.1 AuthProvider.initState AuthProvider.ReachableAuth.init

end Sourceful
